import Mathlib

/-!
# Verification of the secret-santa-shuffler assignment engine and lifecycle

Shallow embedding of the core of the repository:

* `src/unnamed/part_011` — Sattolo shuffle (`secureRandomInt`,
  `sattoloShuffleInPlace`, `sattoloShuffle`, `createSecretSantaChain`,
  `createSecretSantaAssignments`, `validateAssignments`);
* `src/unnamed/part_015` — the persistence helpers (`updateExchange`,
  `updateExchangeStatus`, `assignRecipient`, `deleteParticipant`, …);
* `src/src/routes/exchanges/[exchangeId]/shuffle/index.tsx` — the
  `useShuffleAction` and `useSendSecretsAction` server actions;
* `src/src/lib/exchanges/notifications.ts` — `checkAndNotifyAllComplete`;
* the participant route actions (`useAddParticipant`, `useResendInvite`,
  `useUpdateParticipantEmail`, `useRemoveParticipant`) appended in
  `src/migrations/0001_initial_schema.sql`.

JS `Map`s are modelled as association lists in insertion order (a JS `Map`
keeps one entry per key, in insertion order).  Randomness is passed in as an
explicit draw function, machine integers as `Nat`.
-/

namespace SecretSanta

/-! ## Permutation engine (src/unnamed/part_011) -/

/-- `secureRandomInt(max)`, crypto branch: `crypto.getRandomValues` yields one
32-bit word `w` (`array[0]`), and the function returns `w % max`.  The word is
made explicit as an argument. -/
def secureRandomInt (w max : Nat) : Nat := w % max

/-- The JS destructuring swap `[array[i], array[j]] = [array[j], array[i]]`
on a list: both right-hand sides are read before either write. -/
def swapPos [Inhabited α] (l : List α) (i j : Nat) : List α :=
  (l.set i (l.getD j default)).set j (l.getD i default)

/-- The loop `for (let i = n - 1; i > 0; i--) { const j = secureRandomInt(i);
swap(i, j) }` of `sattoloShuffleInPlace`, with the sequence of random draws
passed in as `rand` (`rand i` is the value `secureRandomInt(i)` returned at
loop index `i`).  `sattoloAux rand i l` performs the swaps for loop indices
`i, i-1, …, 1`. -/
def sattoloAux [Inhabited α] (rand : Nat → Nat) : Nat → List α → List α
  | 0, l => l
  | i+1, l => sattoloAux rand i (swapPos l (i+1) (rand (i+1)))

/-- `sattoloShuffleInPlace`: returns the array unchanged when `n < 2`,
otherwise runs the swap loop from index `n-1` down to `1`. -/
def sattoloShuffleInPlace [Inhabited α] (rand : Nat → Nat) (l : List α) : List α :=
  if l.length < 2 then l else sattoloAux rand (l.length - 1) l

/-- `sattoloShuffle`: copies the array (a no-op on immutable lists) and
shuffles the copy in place. -/
def sattoloShuffle [Inhabited α] (rand : Nat → Nat) (l : List α) : List α :=
  sattoloShuffleInPlace rand l

/-- The permutation of positions effected by the swap loop: processing loop
index `i` composes `Equiv.swap i (rand i)` on the left of the permutation
accumulated for the smaller indices. -/
def sattoloPerm (rand : Nat → Nat) : Nat → Equiv.Perm Nat
  | 0 => 1
  | m+1 => Equiv.swap (m+1) (rand (m+1)) * sattoloPerm rand m

/-- A list enumerating one full cycle of `f`: each entry maps to the next,
cyclically. -/
def IsCycleList (f : α → α) (l : List α) : Prop :=
  ∀ i (h : i < l.length),
    f (l.get ⟨i, h⟩) =
      l.get ⟨(i+1) % l.length, Nat.mod_lt _ (Nat.lt_of_le_of_lt (Nat.zero_le i) h)⟩

/-- JS `Map.prototype.get`. -/
def mapGet [DecidableEq α] : List (α × β) → α → Option β
  | [], _ => none
  | p :: rest, k => if p.1 = k then some p.2 else mapGet rest k

/-- JS `Map.prototype.set`: overwrite in place when the key is present,
append otherwise. -/
def mapSet [DecidableEq α] : List (α × β) → α → β → List (α × β)
  | [], k, v => [(k, v)]
  | p :: rest, k, v => if p.1 = k then (k, v) :: rest else p :: mapSet rest k v

/-- `createSecretSantaChain`: throws (here `.error`) when fewer than two
participants, otherwise pairs `participantIds[i] -> shuffled[i]` into a map. -/
def createSecretSantaChain (rand : Nat → Nat) (participantIds : List String) :
    Except String (List (String × String)) :=
  if participantIds.length < 2 then
    .error "Secret Santa requires at least 2 participants"
  else
    let shuffled := sattoloShuffle rand participantIds
    .ok ((List.range participantIds.length).foldl
      (fun acc i => mapSet acc (participantIds.getD i default) (shuffled.getD i default)) [])

/-- `createSecretSantaAssignments`: the chain as an array of pairs
(`Array.from(chain.entries())` in insertion order). -/
def createSecretSantaAssignments (rand : Nat → Nat) (participantIds : List String) :
    Except String (List (String × String)) :=
  createSecretSantaChain rand participantIds

/-! ## Assignment validator (src/unnamed/part_011, `validateAssignments`) -/

/-- The result object `{ valid, error? }`. -/
structure ValidationResult where
  valid : Bool
  error : Option String
deriving DecidableEq, Repr

/-- The traversal loop `while (current && !visited.has(current)) {
visited.add(current); current = assignments.get(current) }`.  `current` is
`none` for JS `undefined`; the JS truthiness test also stops on the empty
string.  The loop terminates because `visited` grows at each step inside a
finite universe; `fuel` is an upper bound on the number of iterations, shown
sufficient in `visitWalk_stopped`. -/
def visitWalk (m : List (String × String)) :
    Nat → Option String → List String → List String × Option String
  | 0, cur, vis => (vis, cur)
  | fuel+1, cur, vis =>
    match cur with
    | none => (vis, none)
    | some c =>
      if c = "" then (vis, some c)
      else if c ∈ vis then (vis, some c)
      else visitWalk m fuel (mapGet m c) (vis ++ [c])

/-- `validateAssignments`: key/value cardinality check, every recipient a
santa, no self-assignment, then the single-cycle traversal check. -/
def validateAssignments (m : List (String × String)) : ValidationResult :=
  let santas := (m.map Prod.fst).toFinset
  let recipients := (m.map Prod.snd).toFinset
  if santas.card ≠ recipients.card then
    ⟨false, some "Mismatched number of santas and recipients"⟩
  else
    match (m.map Prod.snd).find? (fun r => !(decide (r ∈ santas))) with
    | some r => ⟨false, some ("Recipient " ++ r ++ " is not a santa")⟩
    | none =>
      match m.find? (fun p => decide (p.1 = p.2)) with
      | some p => ⟨false, some ("Self-assignment detected: " ++ p.1)⟩
      | none =>
        let start := m.head?.map Prod.fst
        let res := visitWalk m (m.length + 2) start []
        if res.1.length ≠ m.length then
          ⟨false, some ("Multiple cycles detected. Only " ++ toString res.1.length ++
            " of " ++ toString m.length ++ " participants in main cycle")⟩
        else if res.2 ≠ start then
          ⟨false, some "Cycle does not close properly"⟩
        else ⟨true, none⟩

/-! ## The spec's three validator checks (§4.2), stated from the spec's words
for the refinement claims. -/

/-- One step of "following the mapping". -/
def chainNext (m : List (String × String)) (x : String) : String :=
  (mapGet m x).getD x

/-- Spec check (1): the set of keys equals the set of values. -/
abbrev keysEqValues (m : List (String × String)) : Prop :=
  (m.map Prod.fst).toFinset = (m.map Prod.snd).toFinset

/-- Spec check (2): no key maps to itself. -/
abbrev noSelfAssignment (m : List (String × String)) : Prop :=
  ∀ p ∈ m, p.1 ≠ p.2

/-- "Starting from `x`, following the mapping visits every key exactly once
and returns to the start." -/
abbrev visitsAllOnce (m : List (String × String)) (x : String) : Prop :=
  ((List.range m.length).map (fun t => (chainNext m)^[t] x)).Nodup ∧
  (∀ y ∈ m.map Prod.fst, y ∈ (List.range m.length).map (fun t => (chainNext m)^[t] x)) ∧
  (chainNext m)^[m.length] x = x

/-- Spec check (3), for an arbitrary starting key. -/
abbrev singleCycle (m : List (String × String)) : Prop :=
  ∀ x ∈ m.map Prod.fst, visitsAllOnce m x

/-! ## C2: distribution of `secureRandomInt` under a uniform 32-bit source -/

/-- Number of 32-bit words `w` for which `secureRandomInt w max = r`: the
weight of outcome `r` when the source is uniform over `[0, 2^32)`. -/
def drawCount (max r : Nat) : Nat :=
  ((Finset.range (2^32)).filter (fun w => secureRandomInt w max = r)).card

/-! ## Exchange lifecycle model

One exchange's slice of the D1 database (`src/unnamed/part_015` helpers, the
route actions from `shuffle/index.tsx` and the participant page, and
`checkAndNotifyAllComplete`).  Authentication and organizer-ownership lookups
always succeed in the model; CRUD fields not consulted by any guard or
effect (title, budgets, dates, tokens, timestamps other than the two status
timestamps) are omitted.  External effects (emails) are oracles. -/

/-- `status TEXT` column values. -/
inductive ExchangeStatus
  | draft
  | collecting
  | ready
  | shuffled
  | complete
deriving DecidableEq, Repr

/-- The exchange row: status plus the two lifecycle timestamps. -/
structure ExchangeRow where
  status : ExchangeStatus
  shuffled_at : Option Nat
  secrets_sent_at : Option Nat
deriving DecidableEq, Repr

/-- A participant row (fields consulted by the modelled operations). -/
structure ParticipantRow where
  id : String
  email : String
  questionnaire_completed_at : Option Nat
  assigned_recipient_id : Option String
deriving DecidableEq, Repr

/-- One exchange's database slice; `questionnaires` is the set of participant
ids owning a questionnaire row. -/
structure Db where
  exchange : ExchangeRow
  participants : List ParticipantRow
  questionnaires : List String
deriving DecidableEq, Repr

/-- `listParticipantsByExchange` (rows ordered by insertion). -/
def listParticipantsByExchange (db : Db) : List ParticipantRow :=
  db.participants

/-- `countParticipantsByExchange`. -/
def countParticipantsByExchange (db : Db) : Nat :=
  db.participants.length

/-- `countCompletedQuestionnaires`: participants with
`questionnaire_completed_at IS NOT NULL`. -/
def countCompletedQuestionnaires (db : Db) : Nat :=
  (db.participants.filter (fun p => p.questionnaire_completed_at.isSome)).length

/-- `areAllQuestionnairesComplete`: `total > 0 && total === completed`. -/
def areAllQuestionnairesComplete (db : Db) : Bool :=
  decide (0 < countParticipantsByExchange db) &&
    (countParticipantsByExchange db == countCompletedQuestionnaires db)

/-- `findParticipantById` (ids are a primary key; first match). -/
def findParticipantById (db : Db) (pid : String) : Option ParticipantRow :=
  db.participants.find? (fun p => p.id == pid)

/-- `findParticipantByExchangeAndEmail`. -/
def findParticipantByExchangeAndEmail (db : Db) (email : String) : Option ParticipantRow :=
  db.participants.find? (fun p => p.email == email)

/-- `findQuestionnaireByParticipant`: presence of the questionnaire row (its
payload only feeds the email body). -/
def findQuestionnaireByParticipant (db : Db) (pid : String) : Option Unit :=
  if pid ∈ db.questionnaires then some () else none

/-- `assignRecipient`: `UPDATE participants SET assigned_recipient_id = ?
WHERE id = ?`. -/
def assignRecipient (db : Db) (pid rid : String) : Db :=
  let ps := db.participants.map
    (fun p => if p.id = pid then { p with assigned_recipient_id := some rid } else p)
  { db with participants := ps }

/-- `UpdateExchangeInput`: each field is `undefined` (= `none`, keep the
existing value) or a value to write; the two timestamp columns are nullable,
hence `Option (Option Nat)`. -/
structure UpdateExchangeInput where
  status : Option ExchangeStatus := none
  shuffled_at : Option (Option Nat) := none
  secrets_sent_at : Option (Option Nat) := none

/-- `updateExchange` (part_015 lines 482–528): read the existing row, then an
unconditional `UPDATE exchanges SET … WHERE id = ?` writing each input field
when present and the existing value otherwise.  There is no condition on the
current status. -/
def updateExchange (db : Db) (input : UpdateExchangeInput) : Db :=
  { db with exchange :=
    { status := input.status.getD db.exchange.status
      shuffled_at := input.shuffled_at.getD db.exchange.shuffled_at
      secrets_sent_at := input.secrets_sent_at.getD db.exchange.secrets_sent_at } }

/-- `updateExchangeStatus`: `UPDATE exchanges SET status = ? WHERE id = ?`. -/
def updateExchangeStatus (db : Db) (s : ExchangeStatus) : Db :=
  { db with exchange := { db.exchange with status := s } }

/-- `deleteParticipant`. -/
def deleteParticipant (db : Db) (pid : String) : Db :=
  { db with participants := db.participants.filter (fun p => p.id != pid) }

/-- `updateParticipantEmail`. -/
def updateParticipantEmail (db : Db) (pid email : String) : Db :=
  let ps := db.participants.map
    (fun p => if p.id = pid then { p with email := email } else p)
  { db with participants := ps }

/-- `createParticipant` (INSERT; listing orders by `created_at ASC`). -/
def createParticipant (db : Db) (p : ParticipantRow) : Db :=
  { db with participants := db.participants ++ [p] }

/-- `markQuestionnaireCompleted`. -/
def markQuestionnaireCompleted (db : Db) (pid : String) (now : Nat) : Db :=
  let ps := db.participants.map
    (fun p => if p.id = pid then { p with questionnaire_completed_at := some now } else p)
  { db with participants := ps }

/-- The plain-object result of a route action; fields absent from a given
return are `none`. -/
structure ActionResult where
  success : Bool
  error : Option String := none
  message : Option String := none
  assignmentCount : Option Nat := none
  sentCount : Option Nat := none
  errors : Option (List String) := none
deriving DecidableEq, Repr

/-! ### `useShuffleAction` (shuffle/index.tsx lines 113–195) -/

/-- The read-and-validate half of `useShuffleAction` (lines 124–171): the
status guard, participant-count and questionnaire-completion guards,
assignment generation and validation.  Every database call here is a read;
each is `await`ed, so another request may interleave after any of them. -/
def shuffleRead (rand : Nat → Nat) (db : Db) : Except ActionResult (List (String × String)) :=
  if db.exchange.status ≠ .collecting ∧ db.exchange.status ≠ .ready then
    .error { success := false, error := some "Exchange has already been shuffled or is not ready." }
  else
    let participants := listParticipantsByExchange db
    if participants.length < 2 then
      .error { success := false, error := some "Need at least 2 participants." }
    else if countCompletedQuestionnaires db ≠ participants.length then
      .error { success := false,
               error := some "All participants must complete their questionnaires first." }
    else
      match createSecretSantaAssignments rand (participants.map (fun p => p.id)) with
      | .error _ =>
        .error { success := false, error := some "An unexpected error occurred." }
      | .ok assignments =>
        if (validateAssignments assignments).valid = false then
          .error { success := false, error := some "Shuffle validation failed. Please try again." }
        else
          .ok assignments

/-- The write half of `useShuffleAction` (lines 173–182): persist every
assignment edge, then set status `shuffled` and the shuffle timestamp. -/
def shuffleWrite (assignments : List (String × String)) (now : Nat) (db : Db) : Db :=
  updateExchange
    (assignments.foldl (fun d p => assignRecipient d p.1 p.2) db)
    { status := some .shuffled, shuffled_at := some (some now) }

/-- The success result of `useShuffleAction`. -/
def shuffleSuccess (assignments : List (String × String)) : ActionResult :=
  { success := true, message := some "Assignments shuffled successfully!",
    assignmentCount := some assignments.length }

/-- `useShuffleAction`: read-and-validate, then (sequentially, within one
request) the writes. -/
def useShuffleAction (rand : Nat → Nat) (now : Nat) (db : Db) : ActionResult × Db :=
  match shuffleRead rand db with
  | .error r => (r, db)
  | .ok assignments => (shuffleSuccess assignments, shuffleWrite assignments now db)

/-! ### `useSendSecretsAction` (shuffle/index.tsx lines 200–328) -/

/-- One iteration of the send loop (lines 249–289), accumulating
`(sentCount, errors)`; `deliver` is the external delivery capability keyed by
the santa's participant id. -/
def sendLoopStep (db : Db) (deliver : String → Bool) (acc : Nat × List String)
    (santa : ParticipantRow) : Nat × List String :=
  match santa.assigned_recipient_id with
  | none => (acc.1, acc.2 ++ [santa.email ++ ": No assignment found"])
  | some rid =>
    match findParticipantById db rid with
    | none => (acc.1, acc.2 ++ [santa.email ++ ": Recipient not found"])
    | some recipient =>
      match findQuestionnaireByParticipant db recipient.id with
      | none => (acc.1, acc.2 ++ [santa.email ++ ": Recipient questionnaire not found"])
      | some _ =>
        if deliver santa.id then (acc.1 + 1, acc.2)
        else (acc.1, acc.2 ++ [santa.email ++ ": Send failed"])

/-- The `(sentCount, errors)` aggregate of the send loop (lines 246–289). -/
def sendOutcome (db : Db) (deliver : String → Bool) : Nat × List String :=
  (listParticipantsByExchange db).foldl (sendLoopStep db deliver) (0, [])

/-- `useSendSecretsAction`: status and already-sent guards, the per-recipient
send loop, then the three-way outcome handling. -/
def useSendSecretsAction (deliver : String → Bool) (now : Nat) (db : Db) : ActionResult × Db :=
  if db.exchange.status ≠ .shuffled then
    ({ success := false, error := some "Exchange must be shuffled before sending secrets." }, db)
  else if db.exchange.secrets_sent_at ≠ none then
    ({ success := false, error := some "Secrets have already been sent." }, db)
  else
    let participants := listParticipantsByExchange db
    let res := sendOutcome db deliver
    if res.1 = participants.length then
      ({ success := true,
         message := some ("All " ++ toString res.1 ++ " Secret Santa assignments sent!"),
         sentCount := some res.1 },
       updateExchange db { status := some .complete, secrets_sent_at := some (some now) })
    else if 0 < res.1 then
      ({ success := true,
         message := some ("Sent " ++ toString res.1 ++ " of " ++
           toString participants.length ++ " emails. Some failed."),
         sentCount := some res.1, errors := some res.2 },
       updateExchange db { secrets_sent_at := some (some now) })
    else
      ({ success := false, error := some "Failed to send any emails.", errors := some res.2 }, db)

/-! ### Participant page actions (appended in migrations/0001_initial_schema.sql) -/

/-- Input to `useAddParticipant` (generated id, normalized email, name). -/
structure AddParticipantInput where
  id : String
  email : String

/-- `useAddParticipant`: allowed only in `draft`/`collecting`; duplicate-email
guard; inserts the participant; promotes `draft` to `collecting`. -/
def useAddParticipant (input : AddParticipantInput) (db : Db) : ActionResult × Db :=
  if db.exchange.status ≠ .draft ∧ db.exchange.status ≠ .collecting then
    ({ success := false, error := some "Cannot add participants after shuffling." }, db)
  else
    match findParticipantByExchangeAndEmail db input.email with
    | some _ =>
      ({ success := false, error := some "This email is already added to the exchange." }, db)
    | none =>
      let db1 := createParticipant db ⟨input.id, input.email, none, none⟩
      let db2 := if db.exchange.status = .draft then updateExchangeStatus db1 .collecting else db1
      ({ success := true, message := some "Participant added and invitation sent!" }, db2)

/-- `useResendInvite`: re-sends the questionnaire invite email (an external
effect); refused once the questionnaire is completed.  Never writes. -/
def useResendInvite (pid : String) (db : Db) : ActionResult × Db :=
  match findParticipantById db pid with
  | none => ({ success := false, error := some "Participant not found." }, db)
  | some p =>
    if p.questionnaire_completed_at.isSome then
      ({ success := false, error := some "Questionnaire already completed." }, db)
    else
      ({ success := true, message := some "Invitation resent!" }, db)

/-- `useUpdateParticipantEmail`: participant lookup, email validation
(`isValidEmail` is the regex from the security lib, passed as an oracle),
duplicate check, then the write.  There is no guard on the exchange status. -/
def useUpdateParticipantEmail (isValidEmail : String → Bool) (pid email : String) (db : Db) :
    ActionResult × Db :=
  match findParticipantById db pid with
  | none => ({ success := false, error := some "Participant not found." }, db)
  | some p =>
    if isValidEmail email = false then
      ({ success := false, error := some "Please enter a valid email address." }, db)
    else
      let dup : Bool := match findParticipantByExchangeAndEmail db email with
        | some existing => existing.id != p.id
        | none => false
      if dup then
        ({ success := false, error := some "This email is already in the exchange." }, db)
      else
        ({ success := true, message := some "Email updated!" }, updateParticipantEmail db pid email)

/-- `useRemoveParticipant`: refused when status is `shuffled` or `complete`;
otherwise, if the participant exists, delete it. -/
def useRemoveParticipant (pid : String) (db : Db) : ActionResult × Db :=
  if db.exchange.status = .shuffled ∨ db.exchange.status = .complete then
    ({ success := false, error := some "Cannot remove participants after shuffling." }, db)
  else
    match findParticipantById db pid with
    | none => ({ success := false, error := some "Participant not found." }, db)
    | some _ =>
      ({ success := true, message := some "Participant removed." }, deleteParticipant db pid)

/-- `useUpdateExchange` (src/unnamed/part_002): edit title/budgets/date —
none of which the model tracks — refused once shuffled; never writes status. -/
def useUpdateExchangeAction (db : Db) : ActionResult × Db :=
  if db.exchange.status = .shuffled ∨ db.exchange.status = .complete then
    ({ success := false, error := some "Cannot edit after shuffling." }, db)
  else
    ({ success := true }, updateExchange db {})

/-- Result object of `checkAndNotifyAllComplete`. -/
structure NotifyResult where
  notified : Bool
  error : Option String := none
deriving DecidableEq, Repr

/-- `checkAndNotifyAllComplete` (notifications.ts): when every questionnaire
is complete and the status is still `collecting`, set it to `ready`, then
send the organizer notification (`emailOk` is the delivery outcome; the
status write precedes it). -/
def checkAndNotifyAllComplete (emailOk : Bool) (db : Db) : NotifyResult × Db :=
  if areAllQuestionnairesComplete db = false then ({ notified := false }, db)
  else if db.exchange.status ≠ .collecting then ({ notified := false }, db)
  else
    let db1 := updateExchangeStatus db .ready
    if emailOk then ({ notified := true }, db1)
    else ({ notified := false, error := some "Failed to send email" }, db1)

/-! ### Status order and the operations that can touch it -/

/-- Position within Draft < Collecting < Ready < Shuffled < Complete. -/
def statusRank : ExchangeStatus → Nat
  | .draft => 0
  | .collecting => 1
  | .ready => 2
  | .shuffled => 3
  | .complete => 4

/-- Every modelled operation on one exchange, with its request parameters. -/
inductive Op
  | addParticipant (input : AddParticipantInput)
  | resendInvite (pid : String)
  | editParticipantEmail (isValidEmail : String → Bool) (pid email : String)
  | removeParticipant (pid : String)
  | editExchange
  | completeQuestionnaire (pid : String) (now : Nat) (emailOk : Bool)
  | shuffle (rand : Nat → Nat) (now : Nat)
  | sendSecrets (deliver : String → Bool) (now : Nat)

/-- The database effect of one operation (`completeQuestionnaire` is the
questionnaire submission: mark completed, then `checkAndNotifyAllComplete`). -/
def applyOp : Op → Db → Db
  | .addParticipant input, db => (useAddParticipant input db).2
  | .resendInvite pid, db => (useResendInvite pid db).2
  | .editParticipantEmail v pid email, db => (useUpdateParticipantEmail v pid email db).2
  | .removeParticipant pid, db => (useRemoveParticipant pid db).2
  | .editExchange, db => (useUpdateExchangeAction db).2
  | .completeQuestionnaire pid now ok, db =>
      (checkAndNotifyAllComplete ok (markQuestionnaireCompleted db pid now)).2
  | .shuffle rand now, db => (useShuffleAction rand now db).2
  | .sendSecrets deliver now, db => (useSendSecretsAction deliver now db).2

/-- Two shuffle requests racing on one exchange, interleaved at the awaited
persistence-call boundary: both read-and-validate phases run against the same
snapshot before either write phase runs (each database call in the action is
`await`ed, so the runtime may schedule the other request between them). -/
def racedShuffles (randA randB : Nat → Nat) (nowA nowB : Nat) (db : Db) :
    (ActionResult × ActionResult) × Db :=
  match shuffleRead randA db, shuffleRead randB db with
  | .error rA, .error rB => ((rA, rB), db)
  | .error rA, .ok asB => ((rA, shuffleSuccess asB), shuffleWrite asB nowB db)
  | .ok asA, .error rB => ((shuffleSuccess asA, rB), shuffleWrite asA nowA db)
  | .ok asA, .ok asB =>
    ((shuffleSuccess asA, shuffleSuccess asB), shuffleWrite asB nowB (shuffleWrite asA nowA db))

/-! ### Concrete fixtures used by witnesses and counterexamples -/

/-- A draw sequence satisfying the Sattolo bound `rand i < i`. -/
def demoRand : Nat → Nat := fun i => i - 1

/-- A ready-to-shuffle exchange with two completed participants. -/
def demoDb : Db :=
  { exchange := { status := .ready, shuffled_at := none, secrets_sent_at := none }
    participants := [⟨"p1", "p1@x", some 10, none⟩, ⟨"p2", "p2@x", some 11, none⟩]
    questionnaires := ["p1", "p2"] }

/-- A shuffled four-participant exchange, secrets not yet sent. -/
def c6Db : Db :=
  { exchange := { status := .shuffled, shuffled_at := some 20, secrets_sent_at := none }
    participants :=
      [⟨"p1", "p1@x", some 10, some "p2"⟩, ⟨"p2", "p2@x", some 11, some "p3"⟩,
       ⟨"p3", "p3@x", some 12, some "p4"⟩, ⟨"p4", "p4@x", some 13, some "p1"⟩]
    questionnaires := ["p1", "p2", "p3", "p4"] }

/-- A delivery oracle that fails exactly for participant `p3`. -/
def c6Deliver : String → Bool := fun pid => pid != "p3"

/-- A shuffled exchange left in the partially-sent state (reveal timestamp
recorded, status still `shuffled`). -/
def c7Db : Db :=
  { exchange := { status := .shuffled, shuffled_at := some 20, secrets_sent_at := some 50 }
    participants := [⟨"p1", "p1@x", some 10, some "p2"⟩, ⟨"p2", "p2@x", some 11, some "p1"⟩]
    questionnaires := ["p1", "p2"] }

/-- An exchange in status `ready` with two participants. -/
def c9Db : Db :=
  { exchange := { status := .ready, shuffled_at := none, secrets_sent_at := none }
    participants := [⟨"p1", "p1@x", some 10, none⟩, ⟨"p2", "p2@x", some 11, none⟩]
    questionnaires := ["p1", "p2"] }

/-- A shuffled exchange with two assigned participants. -/
def c9ShuffledDb : Db :=
  { exchange := { status := .shuffled, shuffled_at := some 20, secrets_sent_at := none }
    participants := [⟨"q1", "q1@x", some 10, some "q2"⟩, ⟨"q2", "q2@x", some 11, some "q1"⟩]
    questionnaires := ["q1", "q2"] }

/-! # Theorems -/

/-! ## Helper lemmas on the shuffle action -/

/-- Every early-return of the read-and-validate phase carries `success: false`. -/
theorem shuffleRead_error_success (rand : Nat → Nat) (db : Db) (r : ActionResult)
    (h : shuffleRead rand db = .error r) : r.success = false := by
  unfold shuffleRead at h
  split at h
  · cases h; rfl
  · dsimp only at h
    split at h
    · cases h; rfl
    · split at h
      · cases h; rfl
      · split at h
        · cases h; rfl
        · split at h
          · cases h; rfl
          · cases h

/-- The read-and-validate phase succeeds only from `collecting` or `ready`. -/
theorem shuffleRead_ok_status (rand : Nat → Nat) (db : Db) (as : List (String × String))
    (h : shuffleRead rand db = .ok as) :
    db.exchange.status = .collecting ∨ db.exchange.status = .ready := by
  unfold shuffleRead at h
  split at h
  · cases h
  · rename_i hcond
    push_neg at hcond
    rcases Decidable.em (db.exchange.status = .collecting) with hc | hc
    · exact Or.inl hc
    · exact Or.inr (hcond hc)

/-- The write phase leaves the exchange in status `shuffled`. -/
theorem shuffleWrite_status (as : List (String × String)) (now : Nat) (db : Db) :
    (shuffleWrite as now db).exchange.status = .shuffled := rfl

/-- On an already-shuffled exchange the read phase stops at the status guard. -/
theorem shuffleRead_shuffled (rand : Nat → Nat) (db : Db)
    (h : db.exchange.status = .shuffled) :
    shuffleRead rand db =
      .error { success := false,
               error := some "Exchange has already been shuffled or is not ready." } := by
  unfold shuffleRead
  rw [if_pos]
  rw [h]
  exact ⟨by simp, by simp⟩

/-- Each iteration of the send loop accounts for exactly one participant:
the sent count plus the number of error entries equals the number of
participants processed. -/
theorem sendLoop_count (db : Db) (deliver : String → Bool) :
    ∀ (ps : List ParticipantRow) (acc : Nat × List String),
      (ps.foldl (sendLoopStep db deliver) acc).1 +
        (ps.foldl (sendLoopStep db deliver) acc).2.length =
      acc.1 + acc.2.length + ps.length := by
  intro ps
  induction ps with
  | nil => intro acc; simp
  | cons p rest ih =>
    intro acc
    rw [List.foldl_cons, ih (sendLoopStep db deliver acc p)]
    have hstep : (sendLoopStep db deliver acc p).1 +
        (sendLoopStep db deliver acc p).2.length = acc.1 + acc.2.length + 1 := by
      unfold sendLoopStep
      repeat' split
      all_goals simp only [List.length_append, List.length_cons, List.length_nil]
      all_goals omega
    simp only [List.length_cons]
    omega

/-! ## Helper lemmas for the Sattolo shuffle (C1) -/

theorem swapPos_length [Inhabited α] (l : List α) (i j : Nat) :
    (swapPos l i j).length = l.length := by
  simp [swapPos]

theorem sattoloAux_length [Inhabited α] (rand : Nat → Nat) :
    ∀ (m : Nat) (l : List α), (sattoloAux rand m l).length = l.length := by
  intro m
  induction m with
  | zero => intro l; rfl
  | succ m ih => intro l; rw [sattoloAux, ih, swapPos_length]

theorem swapPos_getD [Inhabited α] {l : List α} {i j : Nat} (hi : i < l.length)
    (hj : j < l.length) (hij : i ≠ j) (t : Nat) :
    (swapPos l i j).getD t default = l.getD (Equiv.swap i j t) default := by
  rw [Equiv.swap_apply_def]
  unfold swapPos
  by_cases hti : t = i
  · subst hti
    rw [if_pos rfl, List.getD_eq_getElem _ _ (by simpa using hi),
      List.getElem_set_ne (Ne.symm hij), List.getElem_set_self]
  · by_cases htj : t = j
    · subst htj
      rw [if_neg hti, if_pos rfl, List.getD_eq_getElem _ _ (by simpa using hj),
        List.getElem_set_self]
    · rw [if_neg hti, if_neg htj]
      by_cases htl : t < l.length
      · rw [List.getD_eq_getElem _ _ (by simpa using htl),
          List.getElem_set_ne (fun h => htj h.symm), List.getElem_set_ne (fun h => hti h.symm),
          List.getD_eq_getElem _ _ htl]
      · rw [List.getD_eq_default, List.getD_eq_default]
        · omega
        · simpa using Nat.le_of_not_lt htl

theorem sattoloAux_getD [Inhabited α] (rand : Nat → Nat)
    (hrand : ∀ s, 1 ≤ s → rand s < s) :
    ∀ (m : Nat) (l : List α), m < l.length →
      ∀ t, (sattoloAux rand m l).getD t default = l.getD (sattoloPerm rand m t) default := by
  intro m
  induction m with
  | zero =>
    intro l _ t
    simp [sattoloAux, sattoloPerm]
  | succ m ih =>
    intro l hm t
    have hr : rand (m+1) < m+1 := hrand (m+1) (by omega)
    rw [sattoloAux,
      ih _ (by rw [swapPos_length]; omega) t,
      swapPos_getD (by omega) (by omega) (by omega)]
    rw [sattoloPerm]
    rfl

theorem sattoloPerm_formPerm (rand : Nat → Nat) (hrand : ∀ s, 1 ≤ s → rand s < s) :
    ∀ m, ∃ L : List Nat, L.Nodup ∧ L.toFinset = Finset.range (m+1) ∧
      sattoloPerm rand m = L.formPerm := by
  intro m
  induction m with
  | zero =>
    refine ⟨[0], by simp, by simp, ?_⟩
    simp [sattoloPerm, List.formPerm_singleton]
  | succ m ih =>
    obtain ⟨L, hnd, hfin, hP⟩ := ih
    have hrm : rand (m+1) < m+1 := hrand (m+1) (by omega)
    have hrL : rand (m+1) ∈ L := by
      rw [← List.mem_toFinset, hfin]
      exact Finset.mem_range.mpr hrm
    have hk : L.indexOf (rand (m+1)) < L.length := List.indexOf_lt_length.mpr hrL
    have hrotnd : (L.rotate (L.indexOf (rand (m+1)))).Nodup := List.nodup_rotate.mpr hnd
    have hrotfin : (L.rotate (L.indexOf (rand (m+1)))).toFinset = Finset.range (m+1) := by
      rw [List.toFinset_eq_of_perm _ _ (List.rotate_perm L (L.indexOf (rand (m+1)))), hfin]
    have h0 : 0 < (L.rotate (L.indexOf (rand (m+1)))).length := by
      rw [List.length_rotate]; omega
    have hhead : (L.rotate (L.indexOf (rand (m+1))))[0] = rand (m+1) := by
      rw [List.getElem_rotate]
      have hix : (0 + List.indexOf (rand (m+1)) L) % L.length
          = List.indexOf (rand (m+1)) L := by
        rw [Nat.zero_add, Nat.mod_eq_of_lt hk]
      rw [getElem_congr hix]
      exact List.getElem_indexOf hk
    obtain ⟨rest, hrest⟩ :
        ∃ rest, L.rotate (L.indexOf (rand (m+1))) = rand (m+1) :: rest := by
      cases hc : L.rotate (L.indexOf (rand (m+1))) with
      | nil => rw [hc] at h0; simp at h0
      | cons a tl =>
        refine ⟨tl, ?_⟩
        have ha : a = rand (m+1) := (getElem_congr_coll hc).symm.trans hhead
        rw [ha]
    have hnotmem : (m+1) ∉ L.rotate (L.indexOf (rand (m+1))) := by
      rw [← List.mem_toFinset, hrotfin]
      simp
    refine ⟨(m+1) :: rand (m+1) :: rest, ?_, ?_, ?_⟩
    · rw [List.nodup_cons, ← hrest]
      exact ⟨hnotmem, hrotnd⟩
    · rw [List.toFinset_cons, ← hrest, hrotfin]
      exact Finset.range_succ.symm
    · rw [sattoloPerm, List.formPerm_cons_cons, hrest.symm,
        List.formPerm_rotate L hnd, hP]

theorem mod_shift_inj {n a b : Nat} (i : Nat) (ha : a < n) (hb : b < n)
    (h : (i + a) % n = (i + b) % n) : a = b := by
  have h1 : a ≡ b [MOD n] := Nat.ModEq.add_left_cancel' i h
  have h2 : a % n = b % n := h1
  rw [Nat.mod_eq_of_lt ha, Nat.mod_eq_of_lt hb] at h2
  exact h2

theorem mod_shift_exists {n i j : Nat} (hi : i < n) (hj : j < n) :
    ∃ s, s < n ∧ (i + s) % n = j := by
  refine ⟨(n + j - i) % n, Nat.mod_lt _ (by omega), ?_⟩
  rw [Nat.add_mod_mod]
  have hq : i + (n + j - i) = n + j := by omega
  rw [hq, Nat.add_mod_left, Nat.mod_eq_of_lt hj]

theorem sattoloPerm_cycleList (rand : Nat → Nat) (hrand : ∀ s, 1 ≤ s → rand s < s)
    (n : Nat) (hn : 2 ≤ n) :
    ∃ L : List Nat, L.Nodup ∧ L.length = n ∧ L.toFinset = Finset.range n ∧
      sattoloPerm rand (n-1) = L.formPerm := by
  obtain ⟨L, hnd, hfin, hP⟩ := sattoloPerm_formPerm rand hrand (n-1)
  have hm1 : n - 1 + 1 = n := by omega
  rw [hm1] at hfin
  have hlen : L.length = n := by
    rw [← List.toFinset_card_of_nodup hnd, hfin, Finset.card_range]
  exact ⟨L, hnd, hlen, hfin, hP⟩

theorem mapSet_append [DecidableEq α] :
    ∀ (acc : List (α × β)) (k : α) (v : β), k ∉ acc.map Prod.fst →
      mapSet acc k v = acc ++ [(k, v)] := by
  intro acc
  induction acc with
  | nil => intro k v _; rfl
  | cons p rest ih =>
    intro k v hk
    simp only [List.map_cons, List.mem_cons] at hk
    push_neg at hk
    rw [mapSet, if_neg (fun h => hk.1 h.symm), ih k v hk.2]
    rfl

theorem chain_foldl_eq_zip (ids shuffled : List String) (hnd : ids.Nodup)
    (hlen : shuffled.length = ids.length) :
    (List.range ids.length).foldl
      (fun acc i => mapSet acc (ids.getD i default) (shuffled.getD i default)) []
      = ids.zip shuffled := by
  suffices h : ∀ t, t ≤ ids.length →
      (List.range t).foldl
        (fun acc i => mapSet acc (ids.getD i default) (shuffled.getD i default)) []
        = (ids.take t).zip (shuffled.take t) by
    have hfin := h ids.length (Nat.le_refl _)
    have h2 : shuffled.take ids.length = shuffled := by
      rw [← hlen, List.take_length]
    rwa [List.take_length, h2] at hfin
  intro t
  induction t with
  | zero => intro _; simp
  | succ t ih =>
    intro ht
    have htlen : t < ids.length := by omega
    have hts : t < shuffled.length := by omega
    rw [List.range_succ, List.foldl_append, ih (by omega), List.foldl_cons, List.foldl_nil]
    have hkeys : List.map Prod.fst ((ids.take t).zip (shuffled.take t)) = ids.take t := by
      apply List.map_fst_zip
      simp only [List.length_take]
      omega
    have hnotin : ids.getD t default ∉ List.map Prod.fst ((ids.take t).zip (shuffled.take t)) := by
      rw [hkeys, List.getD_eq_getElem _ _ htlen]
      intro hmem
      obtain ⟨s, hs, hseq⟩ := List.mem_iff_getElem.mp hmem
      have hs' : s < t := by simp [List.length_take] at hs; omega
      rw [List.getElem_take] at hseq
      have : s = t := (List.Nodup.getElem_inj_iff hnd).mp hseq
      omega
    rw [mapSet_append _ _ _ hnotin]
    rw [List.take_succ, List.take_succ,
      List.getElem?_eq_getElem htlen, List.getElem?_eq_getElem hts,
      Option.toList_some, Option.toList_some,
      List.zip_append (by simp only [List.length_take]; omega)]
    rw [List.getD_eq_getElem _ _ htlen, List.getD_eq_getElem _ _ hts]
    rfl

theorem mapGet_zip [DecidableEq α] :
    ∀ (ks : List α) (vs : List β), ks.Nodup →
      ∀ i (h1 : i < ks.length) (h2 : i < vs.length),
        mapGet (ks.zip vs) (ks.get ⟨i, h1⟩) = some (vs.get ⟨i, h2⟩) := by
  intro ks
  induction ks with
  | nil => intro vs _ i h1 h2; simp at h1
  | cons k ks ih =>
    intro vs hnd i h1 h2
    cases vs with
    | nil => simp at h2
    | cons v vs =>
      cases i with
      | zero => simp [mapGet]
      | succ i =>
        have hne : k ≠ ks.get ⟨i, by simpa using h1⟩ := by
          intro h
          have : ks.get ⟨i, by simpa using h1⟩ ∈ ks := List.get_mem _ _ _
          rw [← h] at this
          exact (List.nodup_cons.mp hnd).1 this
        rw [List.zip_cons_cons, mapGet, if_neg ?_]
        · exact ih vs (List.nodup_cons.mp hnd).2 i (by simpa using h1) (by simpa using h2)
        · simpa using fun h => hne h
theorem get_congr (l : List α) {i j : Nat} (hi : i < l.length) (hj : j < l.length)
    (h : i = j) : l.get ⟨i, hi⟩ = l.get ⟨j, hj⟩ := by
  subst h; rfl

theorem IsCycleList.iterate {f : α → α} {l : List α} (hc : IsCycleList f l) :
    ∀ (s i : Nat) (h : i < l.length),
      f^[s] (l.get ⟨i, h⟩) =
        l.get ⟨(i + s) % l.length, Nat.mod_lt _ (Nat.lt_of_le_of_lt (Nat.zero_le i) h)⟩ := by
  intro s
  induction s with
  | zero =>
    intro i h
    simp only [Function.iterate_zero, id_eq]
    exact (get_congr l _ h (by rw [Nat.add_zero, Nat.mod_eq_of_lt h])).symm
  | succ s ih =>
    intro i h
    rw [Function.iterate_succ_apply, hc i h,
      ih ((i+1) % l.length) (Nat.mod_lt _ (Nat.lt_of_le_of_lt (Nat.zero_le i) h))]
    exact get_congr l _ _ (by rw [Nat.mod_add_mod]; congr 1; omega)

theorem IsCycleList.traversal {f : α → α} {l : List α} (hc : IsCycleList f l)
    (hnd : l.Nodup) (x : α) (hx : x ∈ l) :
    ((List.range l.length).map (fun s => f^[s] x)).Nodup ∧
    (∀ y ∈ l, y ∈ (List.range l.length).map (fun s => f^[s] x)) ∧
    f^[l.length] x = x := by
  obtain ⟨i, hix⟩ := List.mem_iff_get.mp hx
  refine ⟨?_, ?_, ?_⟩
  · apply List.Nodup.map_on ?_ (List.nodup_range _)
    intro s1 hs1 s2 hs2 heq
    rw [List.mem_range] at hs1 hs2
    rw [← hix, hc.iterate s1 i.1 i.2, hc.iterate s2 i.1 i.2] at heq
    have hidx : (i.1 + s1) % l.length = (i.1 + s2) % l.length :=
      (List.Nodup.getElem_inj_iff hnd).mp (by simpa [List.get_eq_getElem] using heq)
    exact mod_shift_inj i.1 hs1 hs2 hidx
  · intro y hy
    obtain ⟨j, hjy⟩ := List.mem_iff_get.mp hy
    obtain ⟨s, hs, hmod⟩ := mod_shift_exists i.2 j.2
    rw [List.mem_map]
    refine ⟨s, List.mem_range.mpr hs, ?_⟩
    rw [← hix, hc.iterate s i.1 i.2, ← hjy]
    exact get_congr l _ _ hmod
  · rw [← hix, hc.iterate l.length i.1 i.2]
    exact get_congr l _ _ (by rw [Nat.add_mod_right, Nat.mod_eq_of_lt i.2])


/-! ## Helper lemmas for the validator traversal (C3) -/

theorem mapGet_mem [DecidableEq α] :
    ∀ (m : List (α × β)) (a : α) (b : β), mapGet m a = some b → (a, b) ∈ m := by
  intro m
  induction m with
  | nil => intro a b h; cases h
  | cons p rest ih =>
    intro a b h
    rw [mapGet] at h
    split at h
    · rename_i hpa
      cases h
      rw [List.mem_cons]
      left
      rw [← hpa]
    · exact List.mem_cons.mpr (Or.inr (ih a b h))

theorem mapGet_isSome_of_mem_keys [DecidableEq α] :
    ∀ (m : List (α × β)) (a : α), a ∈ m.map Prod.fst → ∃ b, mapGet m a = some b := by
  intro m
  induction m with
  | nil => intro a h; simp at h
  | cons p rest ih =>
    intro a h
    rw [mapGet]
    by_cases hpa : p.1 = a
    · exact ⟨p.2, by rw [if_pos hpa]⟩
    · rw [if_neg hpa]
      apply ih
      simp only [List.map_cons, List.mem_cons] at h
      rcases h with h | h
      · exact absurd h.symm hpa
      · exact h

theorem not_mem_take_of_nodup {l : List α} (hnd : l.Nodup) {i : Nat} (h : i < l.length) :
    l.get ⟨i, h⟩ ∉ l.take i := by
  intro hmem
  obtain ⟨s, hs, hseq⟩ := List.mem_iff_getElem.mp hmem
  have hs2 : s < i := by simp [List.length_take] at hs; omega
  rw [List.getElem_take] at hseq
  have : s = i := (List.Nodup.getElem_inj_iff hnd).mp (by simpa [List.get_eq_getElem] using hseq)
  omega

/-- Trace description of the traversal loop: the returned visited list extends
the input by a lookup-chain of fresh, truthy elements, and the final
`current` is the lookup of the last chain element. -/
theorem visitWalk_spec (m : List (String × String)) :
    ∀ (fuel : Nat) (cur : Option String) (vis : List String),
      ∃ tr, (visitWalk m fuel cur vis).1 = vis ++ tr ∧
        (tr = [] → (visitWalk m fuel cur vis).2 = cur) ∧
        (∀ y, tr.head? = some y → cur = some y) ∧
        (∀ y, tr.getLast? = some y → (visitWalk m fuel cur vis).2 = mapGet m y) ∧
        List.Chain' (fun a b => mapGet m a = some b) tr ∧
        (∀ x ∈ tr, x ∉ vis) ∧ tr.Nodup ∧ (∀ x ∈ tr, x ≠ "") := by
  intro fuel
  induction fuel with
  | zero =>
    intro cur vis
    exact ⟨[], by simp [visitWalk], fun _ => rfl, by simp, by simp, by simp, by simp,
      by simp, by simp⟩
  | succ fuel ih =>
    intro cur vis
    match cur with
    | none =>
      exact ⟨[], by simp [visitWalk], fun _ => rfl, by simp, by simp, by simp, by simp,
        by simp, by simp⟩
    | some c =>
      by_cases hc0 : c = ""
      · exact ⟨[], by simp [visitWalk, hc0], fun _ => by simp [visitWalk, hc0], by simp,
          by simp, by simp, by simp, by simp, by simp⟩
      · by_cases hcv : c ∈ vis
        · exact ⟨[], by simp [visitWalk, hc0, hcv], fun _ => by simp [visitWalk, hc0, hcv],
            by simp, by simp, by simp, by simp, by simp, by simp⟩
        · have hstep : visitWalk m (fuel+1) (some c) vis
              = visitWalk m fuel (mapGet m c) (vis ++ [c]) := by
            rw [visitWalk]
            rw [if_neg hc0, if_neg hcv]
          obtain ⟨tr, htr1, htr2, htr3, htr4, htr5, htr6, htr7, htr8⟩ :=
            ih (mapGet m c) (vis ++ [c])
          refine ⟨c :: tr, ?_, ?_, ?_, ?_, ?_, ?_, ?_, ?_⟩
          · rw [hstep, htr1]
            simp
          · intro h
            cases h
          · intro y hy
            rw [List.head?_cons, Option.some.injEq] at hy
            rw [hy]
          · intro y hy
            cases tr with
            | nil =>
              simp only [List.getLast?_singleton, Option.some.injEq] at hy
              rw [hstep, htr2 rfl, hy]
            | cons t0 ts =>
              rw [List.getLast?_cons_cons] at hy
              rw [hstep]
              exact htr4 y hy
          · rw [List.chain'_cons']
            refine ⟨?_, htr5⟩
            intro y hy
            exact htr3 y hy
          · intro x hx
            rcases List.mem_cons.mp hx with rfl | hx2
            · exact hcv
            · intro hxv
              exact htr6 x hx2 (List.mem_append_left _ hxv)
          · rw [List.nodup_cons]
            exact ⟨fun hctr => htr6 c hctr (List.mem_append_right _ (by simp)), htr7⟩
          · intro x hx
            rcases List.mem_cons.mp hx with rfl | hx2
            · exact hc0
            · exact htr8 x hx2

/-- If the traversal loop, started at a key, visits exactly `m.length`
elements and ends back at the start, the mapping is a single cycle over the
keys. -/
theorem walk_success_singleCycle (m : List (String × String)) (k0 : String)
    (hk0 : k0 ∈ m.map Prod.fst) (hnd : (m.map Prod.fst).Nodup)
    (hsub : ∀ r ∈ m.map Prod.snd, r ∈ m.map Prod.fst)
    (hlen : (visitWalk m (m.length + 2) (some k0) []).1.length = m.length)
    (hcur : (visitWalk m (m.length + 2) (some k0) []).2 = some k0) :
    singleCycle m := by
  obtain ⟨tr, htr1, htr2, htr3, htr4, htr5, htr6, htr7, htr8⟩ :=
    visitWalk_spec m (m.length + 2) (some k0) []
  have hvis : (visitWalk m (m.length + 2) (some k0) []).1 = tr := by
    rw [htr1]; simp
  have htrlen : tr.length = m.length := by rw [← hvis]; exact hlen
  have hm0 : m ≠ [] := by
    intro h; rw [h] at hk0; simp at hk0
  have hn0 : 0 < m.length := List.length_pos.mpr hm0
  have htrne : tr ≠ [] := by
    intro h; rw [h] at htrlen; simp at htrlen; omega
  have hk0head : k0 = tr.head htrne := by
    have h := htr3 _ (List.head?_eq_head htrne)
    simpa using h
  have hlast : mapGet m (tr.getLast htrne) = some k0 := by
    have h := htr4 _ (List.getLast?_eq_getLast tr htrne)
    rw [hcur] at h
    exact h.symm
  have hmemkeys : ∀ i (hi : i < tr.length), tr.get ⟨i, hi⟩ ∈ m.map Prod.fst := by
    intro i
    induction i with
    | zero =>
      intro hi
      have hh : tr.get ⟨0, hi⟩ = tr.head htrne := by
        rw [List.get_eq_getElem, List.head_eq_getElem]
      rw [hh, ← hk0head]
      exact hk0
    | succ i ih =>
      intro hi
      have hlink := (List.chain'_iff_get.mp htr5) i (by omega)
      have hmem : (tr.get ⟨i, by omega⟩, tr.get ⟨i+1, by omega⟩) ∈ m :=
        mapGet_mem m _ _ hlink
      have hval : tr.get ⟨i+1, by omega⟩ ∈ m.map Prod.snd :=
        List.mem_map.mpr ⟨_, hmem, rfl⟩
      exact hsub _ hval
  have htrsub : ∀ x ∈ tr, x ∈ m.map Prod.fst := by
    intro x hx
    obtain ⟨i, hix⟩ := List.mem_iff_get.mp hx
    rw [← hix]
    exact hmemkeys i.1 i.2
  have hperm : tr.Perm (m.map Prod.fst) :=
    (List.subperm_of_subset htr7 htrsub).perm_of_length_le
      (by rw [htrlen, List.length_map])
  have hcyc : IsCycleList (chainNext m) tr := by
    intro i hi
    by_cases hi1 : i + 1 < tr.length
    · have hlink := (List.chain'_iff_get.mp htr5) i (by omega)
      unfold chainNext
      rw [hlink, Option.getD_some]
      exact get_congr tr hi1 _ (Nat.mod_eq_of_lt hi1).symm
    · have hieq : i + 1 = tr.length := by omega
      have hgl : tr.getLast htrne = tr.get ⟨i, hi⟩ := by
        rw [List.getLast_eq_getElem, List.get_eq_getElem]
        exact getElem_congr (show tr.length - 1 = i by omega)
      unfold chainNext
      rw [← hgl, hlast, Option.getD_some, hk0head]
      have hh : tr.head htrne = tr.get ⟨0, by omega⟩ := by
        rw [List.get_eq_getElem, List.head_eq_getElem]
      rw [hh]
      exact get_congr tr _ _ (by rw [hieq, Nat.mod_self])
  intro x hx
  have hxtr : x ∈ tr := hperm.mem_iff.mpr hx
  obtain ⟨h1, h2, h3⟩ := hcyc.traversal htr7 x hxtr
  rw [htrlen] at h1 h2 h3
  exact ⟨h1, fun y hy => h2 y (hperm.mem_iff.mpr hy), h3⟩

/-- If the mapping is a single cycle over the (truthy, duplicate-free) keys,
the traversal loop started at a key walks the full orbit and stops back at
the start. -/
theorem singleCycle_walk_success (m : List (String × String)) (k0 : String)
    (hk0 : k0 ∈ m.map Prod.fst) (hnd : (m.map Prod.fst).Nodup)
    (hkeys : ∀ k ∈ m.map Prod.fst, k ≠ "")
    (hcyc : singleCycle m) :
    visitWalk m (m.length + 2) (some k0) [] =
      ((List.range m.length).map (fun s => (chainNext m)^[s] k0), some k0) := by
  obtain ⟨hTnd, hcov, hret⟩ := hcyc k0 hk0
  have hTlen : ((List.range m.length).map (fun s => (chainNext m)^[s] k0)).length
      = m.length := by simp
  have hperm : (m.map Prod.fst).Perm
      ((List.range m.length).map (fun s => (chainNext m)^[s] k0)) :=
    (List.subperm_of_subset hnd (fun x hx => hcov x hx)).perm_of_length_le
      (by rw [hTlen, List.length_map])
  have hTkeys : ∀ x ∈ (List.range m.length).map (fun s => (chainNext m)^[s] k0),
      x ∈ m.map Prod.fst := fun x hx => hperm.mem_iff.mpr hx
  have hTget : ∀ t (ht : t < m.length),
      ((List.range m.length).map (fun s => (chainNext m)^[s] k0)).get
          ⟨t, by rw [hTlen]; exact ht⟩
        = (chainNext m)^[t] k0 := by
    intro t ht
    simp [List.get_eq_getElem, List.getElem_map, List.getElem_range]
  have hwalk : ∀ fuel t, t ≤ m.length → m.length + 1 - t ≤ fuel →
      visitWalk m fuel (some ((chainNext m)^[t] k0))
          (((List.range m.length).map (fun s => (chainNext m)^[s] k0)).take t)
        = ((List.range m.length).map (fun s => (chainNext m)^[s] k0), some k0) := by
    intro fuel
    induction fuel with
    | zero => intro t ht hf; omega
    | succ fuel ih =>
      intro t ht hf
      by_cases htn : t = m.length
      · subst htn
        rw [hret, List.take_of_length_le (by rw [hTlen])]
        rw [visitWalk]
        rw [if_neg (hkeys k0 hk0), if_pos (hcov k0 hk0)]
      · have htlt : t < m.length := by omega
        have hcT : (chainNext m)^[t] k0
            ∈ (List.range m.length).map (fun s => (chainNext m)^[s] k0) := by
          rw [← hTget t htlt]
          exact List.get_mem _ _ _
        have hckeys : (chainNext m)^[t] k0 ∈ m.map Prod.fst := hTkeys _ hcT
        have hcne : (chainNext m)^[t] k0 ≠ "" := hkeys _ hckeys
        have hcfresh : (chainNext m)^[t] k0
            ∉ ((List.range m.length).map (fun s => (chainNext m)^[s] k0)).take t := by
          rw [← hTget t htlt]
          exact not_mem_take_of_nodup hTnd _
        obtain ⟨b, hb⟩ := mapGet_isSome_of_mem_keys m _ hckeys
        have hfc : mapGet m ((chainNext m)^[t] k0) = some ((chainNext m)^[t+1] k0) := by
          rw [Function.iterate_succ_apply']
          have hcn : chainNext m ((chainNext m)^[t] k0)
              = (mapGet m ((chainNext m)^[t] k0)).getD ((chainNext m)^[t] k0) := rfl
          rw [hcn, hb, Option.getD_some]
        have htake : (((List.range m.length).map (fun s => (chainNext m)^[s] k0)).take t)
              ++ [(chainNext m)^[t] k0]
            = ((List.range m.length).map (fun s => (chainNext m)^[s] k0)).take (t+1) := by
          rw [List.take_succ]
          congr 1
          rw [List.getElem?_eq_getElem (by rw [hTlen]; exact htlt)]
          rw [show ((List.range m.length).map (fun s => (chainNext m)^[s] k0))[t]
              = (chainNext m)^[t] k0 from by
            simp [List.getElem_map, List.getElem_range]]
          rfl
        rw [visitWalk]
        rw [if_neg hcne, if_neg hcfresh, hfc, htake]
        exact ih (t+1) (by omega) (by omega)
  have h0 := hwalk (m.length + 2) 0 (by omega) (by omega)
  rw [Function.iterate_zero] at h0
  simpa using h0


/-! ## Claim theorems -/

/-- C2: with a uniform 32-bit source, `secureRandomInt(3)` — the draw at loop
index `i = 3`, reached for every `n ≥ 4` — is *not* uniform over
`{0, 1, 2}`: the three outcome weights cannot all be equal, because
`3` does not divide `2^32`.  This is the classical modulo bias of
`array[0] % max`, contradicting the claim (and the function's own doc
comment) that the draw is uniform. -/
theorem secureRandomInt_mod3_not_uniform :
    ¬ ∃ c, ∀ r < 3, drawCount 3 r = c := by
  rintro ⟨c, hc⟩
  have hmem : ∀ w ∈ Finset.range (2^32), w % 3 ∈ Finset.range 3 := by
    intro w _
    exact Finset.mem_range.mpr (Nat.mod_lt _ (by norm_num))
  have hsum := Finset.card_eq_sum_card_fiberwise hmem
  have hc' : ∀ r ∈ Finset.range 3,
      ((Finset.range (2^32)).filter (fun w => w % 3 = r)).card = c := by
    intro r hr
    have := hc r (Finset.mem_range.mp hr)
    simpa [drawCount, secureRandomInt] using this
  rw [Finset.sum_congr rfl hc', Finset.sum_const, Finset.card_range, Finset.card_range,
    smul_eq_mul] at hsum
  have h3 : (3 : Nat) ∣ 2^32 := ⟨c, hsum⟩
  norm_num at h3

/-- C4: if a shuffle succeeds, a second sequential shuffle of the same
exchange returns the already-shuffled conflict error and leaves the database
— every assignment edge, the status and the shuffle timestamp — untouched. -/
theorem shuffle_twice_conflict (rand : Nat → Nat) (now : Nat) (rand' : Nat → Nat) (now' : Nat)
    (db : Db) (h : (useShuffleAction rand now db).1.success = true) :
    useShuffleAction rand' now' (useShuffleAction rand now db).2 =
      ({ success := false, error := some "Exchange has already been shuffled or is not ready." },
        (useShuffleAction rand now db).2) := by
  cases hread : shuffleRead rand db with
  | error r =>
    exfalso
    unfold useShuffleAction at h
    rw [hread] at h
    have := shuffleRead_error_success rand db r hread
    simp [this] at h
  | ok as =>
    have hdb : (useShuffleAction rand now db).2 = shuffleWrite as now db := by
      unfold useShuffleAction; rw [hread]
    rw [hdb]
    unfold useShuffleAction
    rw [shuffleRead_shuffled rand' _ (shuffleWrite_status as now db)]

/-- C4 witness: on a concrete ready exchange with two completed participants
the first shuffle succeeds and the second returns the conflict unchanged. -/
theorem shuffle_twice_conflict_witness :
    (useShuffleAction demoRand 100 demoDb).1.success = true ∧
    useShuffleAction demoRand 200 (useShuffleAction demoRand 100 demoDb).2 =
      ({ success := false, error := some "Exchange has already been shuffled or is not ready." },
        (useShuffleAction demoRand 100 demoDb).2) :=
  ⟨by decide, shuffle_twice_conflict demoRand 100 demoRand 200 demoDb (by decide)⟩

/-- C5 (amended): the double-shuffle guard is a read-then-check in the
action, and `updateExchange` writes unconditionally (its status write holds
whatever the current row says); hence in the interleaving where both racing
requests pass the read phase before either writes, both return success —
neither observes a conflict. -/
theorem shuffle_guard_not_atomic (randA randB : Nat → Nat) (nowA nowB : Nat) (db : Db)
    (asA asB : List (String × String))
    (hA : shuffleRead randA db = .ok asA) (hB : shuffleRead randB db = .ok asB) :
    (racedShuffles randA randB nowA nowB db).1.1 = shuffleSuccess asA ∧
    (racedShuffles randA randB nowA nowB db).1.2 = shuffleSuccess asB ∧
    (racedShuffles randA randB nowA nowB db).1.1.success = true ∧
    (racedShuffles randA randB nowA nowB db).1.2.success = true ∧
    (∀ d t,
      (updateExchange d { status := some .shuffled, shuffled_at := some (some t) }).exchange.status
        = .shuffled) := by
  unfold racedShuffles
  rw [hA, hB]
  exact ⟨rfl, rfl, rfl, rfl, fun d t => rfl⟩

/-- C5 witness. -/
theorem shuffle_guard_not_atomic_witness :
    shuffleRead demoRand demoDb = .ok [("p1", "p2"), ("p2", "p1")] ∧
    (racedShuffles demoRand demoRand 100 200 demoDb).1.1.success = true ∧
    (racedShuffles demoRand demoRand 100 200 demoDb).1.2.success = true :=
  ⟨by rfl,
    (shuffle_guard_not_atomic demoRand demoRand 100 200 demoDb
      [("p1", "p2"), ("p2", "p1")] [("p1", "p2"), ("p2", "p1")] (by rfl) (by rfl)).2.2.1,
    (shuffle_guard_not_atomic demoRand demoRand 100 200 demoDb
      [("p1", "p2"), ("p2", "p1")] [("p1", "p2"), ("p2", "p1")] (by rfl) (by rfl)).2.2.2.1⟩

/-- C5 counterexample: a concrete race in which both requests succeed, the
second does not observe a `StateConflictError` (its `error` field is empty),
and the exchange is shuffled twice. -/
theorem raced_shuffles_both_succeed :
    (racedShuffles demoRand demoRand 100 200 demoDb).1.1.success = true ∧
    (racedShuffles demoRand demoRand 100 200 demoDb).1.2.success = true ∧
    (racedShuffles demoRand demoRand 100 200 demoDb).1.2.error = none ∧
    (racedShuffles demoRand demoRand 100 200 demoDb).2.exchange.status = .shuffled := by
  decide

/-- C6: `sendSecrets` is gated on status `shuffled` with the reveal timestamp
unset, and its outcome is the trichotomy: no failures → status `complete` and
reveal timestamp recorded; some but not all failures → status stays
`shuffled`, reveal timestamp recorded, sent count and per-recipient failures
reported; no delivery succeeded → nothing changes. -/
theorem sendSecrets_trichotomy (deliver : String → Bool) (now : Nat) (db : Db) :
    (db.exchange.status ≠ .shuffled →
      useSendSecretsAction deliver now db =
        ({ success := false, error := some "Exchange must be shuffled before sending secrets." },
          db)) ∧
    (db.exchange.status = .shuffled → db.exchange.secrets_sent_at ≠ none →
      useSendSecretsAction deliver now db =
        ({ success := false, error := some "Secrets have already been sent." }, db)) ∧
    (db.exchange.status = .shuffled → db.exchange.secrets_sent_at = none →
      (sendOutcome db deliver).1 + (sendOutcome db deliver).2.length = db.participants.length ∧
      ((sendOutcome db deliver).2 = [] →
        useSendSecretsAction deliver now db =
          ({ success := true,
             message := some ("All " ++ toString db.participants.length ++
               " Secret Santa assignments sent!"),
             sentCount := some db.participants.length },
            updateExchange db { status := some .complete, secrets_sent_at := some (some now) })) ∧
      ((sendOutcome db deliver).2 ≠ [] → 0 < (sendOutcome db deliver).1 →
        useSendSecretsAction deliver now db =
          ({ success := true,
             message := some ("Sent " ++ toString (sendOutcome db deliver).1 ++ " of " ++
               toString db.participants.length ++ " emails. Some failed."),
             sentCount := some (sendOutcome db deliver).1,
             errors := some (sendOutcome db deliver).2 },
            updateExchange db { secrets_sent_at := some (some now) })) ∧
      ((sendOutcome db deliver).1 = 0 → (sendOutcome db deliver).2 ≠ [] →
        useSendSecretsAction deliver now db =
          ({ success := false, error := some "Failed to send any emails.",
             errors := some (sendOutcome db deliver).2 }, db))) := by
  have hcount : (sendOutcome db deliver).1 + (sendOutcome db deliver).2.length
      = db.participants.length := by
    have := sendLoop_count db deliver db.participants (0, [])
    simpa [sendOutcome, listParticipantsByExchange] using this
  refine ⟨fun hst => ?_, fun hst hsent => ?_, fun hst hsent => ?_⟩
  · unfold useSendSecretsAction
    rw [if_pos hst]
  · unfold useSendSecretsAction
    rw [if_neg (by simp [hst]), if_pos hsent]
  · refine ⟨hcount, fun hempty => ?_, fun hne hpos => ?_, fun hzero hne => ?_⟩
    · have hall : (sendOutcome db deliver).1 = db.participants.length := by
        rw [hempty] at hcount; simpa using hcount
      unfold useSendSecretsAction
      rw [if_neg (by simp [hst]), if_neg (by simp [hsent])]
      dsimp only
      rw [if_pos (by simpa [listParticipantsByExchange] using hall), hall]
    · have hlt : (sendOutcome db deliver).1 ≠ db.participants.length := by
        have : 0 < (sendOutcome db deliver).2.length := List.length_pos.mpr hne
        omega
      unfold useSendSecretsAction
      rw [if_neg (by simp [hst]), if_neg (by simp [hsent])]
      dsimp only
      rw [if_neg (by simpa [listParticipantsByExchange] using hlt), if_pos hpos]
      rfl
    · have hlt : (sendOutcome db deliver).1 ≠ db.participants.length := by
        have : 0 < (sendOutcome db deliver).2.length := List.length_pos.mpr hne
        omega
      unfold useSendSecretsAction
      rw [if_neg (by simp [hst]), if_neg (by simp [hsent])]
      dsimp only
      rw [if_neg (by simpa [listParticipantsByExchange] using hlt), if_neg (by omega)]

/-- C6 witness: four participants, one failing delivery — `sentCount` 3, the
failure reported, status stays `shuffled`, reveal timestamp recorded. -/
theorem sendSecrets_trichotomy_witness :
    sendOutcome c6Db c6Deliver = (3, ["p3@x: Send failed"]) ∧
    useSendSecretsAction c6Deliver 99 c6Db =
      ({ success := true, message := some "Sent 3 of 4 emails. Some failed.",
         sentCount := some 3, errors := some ["p3@x: Send failed"] },
        updateExchange c6Db { secrets_sent_at := some (some 99) }) :=
  ⟨by rfl,
    by
      have h := (sendSecrets_trichotomy c6Deliver 99 c6Db).2.2 rfl rfl
      have h2 := h.2.2.1 (by decide) (by decide)
      simpa using h2⟩

/-- C7 counterexample: in the concrete partially-sent state the send action
refuses ("Secrets have already been sent.") and the only per-participant
resend operation, `useResendInvite`, also refuses ("Questionnaire already
completed.") — the failed recipient cannot be re-notified. -/
theorem no_resend_for_failed_recipient_cex :
    c7Db.exchange.status = .shuffled ∧
    c7Db.exchange.secrets_sent_at = some 50 ∧
    useSendSecretsAction (fun _ => true) 99 c7Db =
      ({ success := false, error := some "Secrets have already been sent." }, c7Db) ∧
    useResendInvite "p2" c7Db =
      ({ success := false, error := some "Questionnaire already completed." }, c7Db) := by
  decide

/-- C7 (amended): after a partial send has recorded the reveal timestamp, the
send action always refuses, and `useResendInvite` — the only resend the code
offers, which re-sends questionnaire invites, not assignments — refuses for
every participant whose questionnaire is complete; neither operation writes. -/
theorem no_assignment_resend (db : Db) (deliver : String → Bool) (now : Nat)
    (pid : String) (p : ParticipantRow) (t : Nat)
    (hs : db.exchange.status = .shuffled) (hsent : db.exchange.secrets_sent_at = some t)
    (hp : findParticipantById db pid = some p) (hq : p.questionnaire_completed_at.isSome) :
    useSendSecretsAction deliver now db =
      ({ success := false, error := some "Secrets have already been sent." }, db) ∧
    useResendInvite pid db =
      ({ success := false, error := some "Questionnaire already completed." }, db) := by
  constructor
  · unfold useSendSecretsAction
    rw [if_neg (by simp [hs]), if_pos (by simp [hsent])]
  · simp [useResendInvite, hp, hq]

/-- C7 witness. -/
theorem no_assignment_resend_witness :
    useSendSecretsAction (fun _ => false) 77 c7Db =
      ({ success := false, error := some "Secrets have already been sent." }, c7Db) ∧
    useResendInvite "p1" c7Db =
      ({ success := false, error := some "Questionnaire already completed." }, c7Db) :=
  no_assignment_resend c7Db (fun _ => false) 77 "p1" ⟨"p1", "p1@x", some 10, some "p2"⟩ 50
    rfl rfl (by decide) (by decide)

/-- C8: every modelled operation moves the exchange status forward (or not at
all) along Draft < Collecting < Ready < Shuffled < Complete, and hence so
does every sequence of operations: the status never moves backward. -/
theorem exchange_status_monotone :
    (∀ (op : Op) (db : Db),
      statusRank db.exchange.status ≤ statusRank (applyOp op db).exchange.status) ∧
    (∀ (ops : List Op) (db : Db),
      statusRank db.exchange.status ≤
        statusRank (ops.foldl (fun d op => applyOp op d) db).exchange.status) := by
  have hstep : ∀ (op : Op) (db : Db),
      statusRank db.exchange.status ≤ statusRank (applyOp op db).exchange.status := by
    intro op db
    cases op with
    | addParticipant input =>
      show statusRank db.exchange.status ≤
        statusRank (useAddParticipant input db).2.exchange.status
      unfold useAddParticipant
      split
      · exact Nat.le_refl _
      · split
        · exact Nat.le_refl _
        · dsimp only
          split
          · rename_i hdraft
            simp only [hdraft, updateExchangeStatus, createParticipant, statusRank]
            omega
          · exact Nat.le_refl _
    | resendInvite pid =>
      show statusRank db.exchange.status ≤
        statusRank (useResendInvite pid db).2.exchange.status
      unfold useResendInvite
      split
      · exact Nat.le_refl _
      · split
        · exact Nat.le_refl _
        · exact Nat.le_refl _
    | editParticipantEmail v pid email =>
      show statusRank db.exchange.status ≤
        statusRank (useUpdateParticipantEmail v pid email db).2.exchange.status
      unfold useUpdateParticipantEmail
      split
      · exact Nat.le_refl _
      · split
        · exact Nat.le_refl _
        · dsimp only
          split
          · exact Nat.le_refl _
          · exact Nat.le_refl _
    | removeParticipant pid =>
      show statusRank db.exchange.status ≤
        statusRank (useRemoveParticipant pid db).2.exchange.status
      unfold useRemoveParticipant
      split
      · exact Nat.le_refl _
      · split
        · exact Nat.le_refl _
        · exact Nat.le_refl _
    | editExchange =>
      show statusRank db.exchange.status ≤
        statusRank (useUpdateExchangeAction db).2.exchange.status
      unfold useUpdateExchangeAction
      split
      · exact Nat.le_refl _
      · exact Nat.le_refl _
    | completeQuestionnaire pid now ok =>
      show statusRank db.exchange.status ≤ statusRank
        (checkAndNotifyAllComplete ok (markQuestionnaireCompleted db pid now)).2.exchange.status
      unfold checkAndNotifyAllComplete
      split
      · exact Nat.le_refl _
      · split
        · exact Nat.le_refl _
        · rename_i hcol
          rw [not_ne_iff] at hcol
          have hdb : (markQuestionnaireCompleted db pid now).exchange.status
              = db.exchange.status := rfl
          rw [hdb] at hcol
          dsimp only
          split
          · simp only [hcol, updateExchangeStatus, markQuestionnaireCompleted, statusRank]
            omega
          · simp only [hcol, updateExchangeStatus, markQuestionnaireCompleted, statusRank]
            omega
    | shuffle rand now =>
      show statusRank db.exchange.status ≤
        statusRank (useShuffleAction rand now db).2.exchange.status
      unfold useShuffleAction
      cases hr : shuffleRead rand db with
      | error r => exact Nat.le_refl _
      | ok as =>
        have hst := shuffleRead_ok_status rand db as hr
        have hW : (shuffleWrite as now db).exchange.status = .shuffled := rfl
        dsimp only
        rcases hst with h | h <;>
          simp only [h, hW, statusRank] <;> omega
    | sendSecrets deliver now =>
      show statusRank db.exchange.status ≤
        statusRank (useSendSecretsAction deliver now db).2.exchange.status
      unfold useSendSecretsAction
      split
      · exact Nat.le_refl _
      · rename_i hsh
        rw [not_ne_iff] at hsh
        split
        · exact Nat.le_refl _
        · dsimp only
          split
          · simp only [hsh, updateExchange, Option.getD_some, statusRank]
            omega
          · split
            · exact Nat.le_refl _
            · exact Nat.le_refl _
  refine ⟨hstep, ?_⟩
  intro ops
  induction ops with
  | nil => intro db; exact Nat.le_refl _
  | cons op rest ih =>
    intro db
    exact Nat.le_trans (hstep op db) (ih (applyOp op db))

/-- C9 counterexample: removal succeeds in status `ready` (outside
{Draft, Collecting}), and editing a participant email succeeds even in
status `shuffled` — both contradict the claim that these operations are
refused for every status outside {Draft, Collecting}. -/
theorem participant_mutation_allowed_cex :
    c9Db.exchange.status = .ready ∧
    (useRemoveParticipant "p1" c9Db).1.success = true ∧
    (useRemoveParticipant "p1" c9Db).2.participants = [⟨"p2", "p2@x", some 11, none⟩] ∧
    c9ShuffledDb.exchange.status = .shuffled ∧
    (useUpdateParticipantEmail (fun _ => true) "q1" "new@x" c9ShuffledDb).1.success = true ∧
    (useUpdateParticipantEmail (fun _ => true) "q1" "new@x" c9ShuffledDb).2.participants =
      [⟨"q1", "new@x", some 10, some "q2"⟩, ⟨"q2", "q2@x", some 11, some "q1"⟩] := by
  decide

/-- C9 (amended): removing a participant is refused, with the database
unchanged, exactly when the status is `shuffled` or `complete` (so it is
allowed in `draft`, `collecting` and `ready`); editing a participant's email
carries no status guard at all and performs the write in every status. -/
theorem participant_mutation_guards (db : Db) (pid email : String) (p : ParticipantRow)
    (isValidEmail : String → Bool) :
    (db.exchange.status = .shuffled ∨ db.exchange.status = .complete →
      useRemoveParticipant pid db =
        ({ success := false, error := some "Cannot remove participants after shuffling." }, db)) ∧
    (db.exchange.status ≠ .shuffled → db.exchange.status ≠ .complete →
      findParticipantById db pid = some p →
      useRemoveParticipant pid db =
        ({ success := true, message := some "Participant removed." }, deleteParticipant db pid)) ∧
    (findParticipantById db pid = some p → isValidEmail email = true →
      findParticipantByExchangeAndEmail db email = none →
      useUpdateParticipantEmail isValidEmail pid email db =
        ({ success := true, message := some "Email updated!" },
          updateParticipantEmail db pid email)) := by
  refine ⟨fun hst => ?_, fun h1 h2 hp => ?_, fun hp hv hd => ?_⟩
  · unfold useRemoveParticipant
    rw [if_pos hst]
  · simp [useRemoveParticipant, hp, h1, h2]
  · simp [useUpdateParticipantEmail, hp, hv, hd]

/-- C9 witness. -/
theorem participant_mutation_guards_witness :
    useRemoveParticipant "q1" c9ShuffledDb =
      ({ success := false, error := some "Cannot remove participants after shuffling." },
        c9ShuffledDb) ∧
    useUpdateParticipantEmail (fun _ => true) "q1" "new@x" c9ShuffledDb =
      ({ success := true, message := some "Email updated!" },
        updateParticipantEmail c9ShuffledDb "q1" "new@x") :=
  ⟨(participant_mutation_guards c9ShuffledDb "q1" "new@x"
      ⟨"q1", "q1@x", some 10, some "q2"⟩ (fun _ => true)).1 (Or.inl (by decide)),
   (participant_mutation_guards c9ShuffledDb "q1" "new@x"
      ⟨"q1", "q1@x", some 10, some "q2"⟩ (fun _ => true)).2.2 (by decide) rfl (by decide)⟩

/-- C10: `validateAssignments` on the empty map returns `valid: true` — the
empty visited set matches the empty key set and the final `current` equals
the (undefined) start. -/
theorem validateAssignments_empty_valid :
    validateAssignments [] = { valid := true, error := none } := by decide

/-- C3 counterexample: on the two-element single cycle through the empty
string, all three of the spec's checks hold, yet the validator returns
invalid — the JS truthiness test in the traversal loop stops on the empty
string, so the claimed equivalence fails as stated. -/
theorem validateAssignments_truthiness_cex :
    keysEqValues [("", "a"), ("a", "")] ∧
    noSelfAssignment [("", "a"), ("a", "")] ∧
    singleCycle [("", "a"), ("a", "")] ∧
    (validateAssignments [("", "a"), ("a", "")]).valid = false := by
  decide

/-- C1 -/
theorem createSecretSantaChain_single_cycle (ids : List String) (rand : Nat → Nat)
    (hlen2 : 2 ≤ ids.length) (hnd : ids.Nodup) (hrand : ∀ i, 1 ≤ i → rand i < i) :
    ∃ m, createSecretSantaChain rand ids = .ok m ∧
      m.map Prod.fst = ids ∧
      (m.map Prod.snd).Perm ids ∧
      (∀ p ∈ m, p.1 ≠ p.2) ∧
      (∀ x ∈ ids,
        ((List.range ids.length).map (fun t => (chainNext m)^[t] x)).Nodup ∧
        (∀ y ∈ ids, y ∈ (List.range ids.length).map (fun t => (chainNext m)^[t] x)) ∧
        (chainNext m)^[ids.length] x = x) := by
  have hnot : ¬ (ids.length < 2) := by omega
  have hshlen : (sattoloShuffle rand ids).length = ids.length := by
    unfold sattoloShuffle sattoloShuffleInPlace
    rw [if_neg hnot, sattoloAux_length]
  obtain ⟨L, hLnd, hLlen, hLfin, hPL⟩ := sattoloPerm_cycleList rand hrand ids.length hlen2
  set σ := sattoloPerm rand (ids.length - 1) with hσdef
  have hgetD : ∀ t, (sattoloShuffle rand ids).getD t default
      = ids.getD (σ t) default := by
    intro t
    unfold sattoloShuffle sattoloShuffleInPlace
    rw [if_neg hnot]
    exact sattoloAux_getD rand hrand (ids.length - 1) ids (by omega) t
  have hmemL : ∀ t, t < ids.length ↔ t ∈ L := by
    intro t
    rw [← List.mem_toFinset, hLfin, Finset.mem_range]
  have hσlt : ∀ t, t < ids.length → σ t < ids.length := by
    intro t ht
    have hmem : σ t ∈ L := by
      rw [hPL]
      exact List.formPerm_apply_mem_of_mem ((hmemL t).mp ht)
    exact (hmemL _).mpr hmem
  have hσfix : ∀ t, t < ids.length → σ t ≠ t := by
    intro t ht
    rw [hPL]
    exact (List.formPerm_apply_mem_ne_self_iff _ hLnd t ((hmemL t).mp ht)).mpr
      (hLlen ▸ hlen2)
  have hshget : ∀ t (h : t < ids.length),
      (sattoloShuffle rand ids).get ⟨t, by rw [hshlen]; exact h⟩
        = ids.get ⟨σ t, hσlt t h⟩ := by
    intro t h
    have hd := hgetD t
    rw [List.getD_eq_getElem _ _ (by rw [hshlen]; exact h),
        List.getD_eq_getElem _ _ (hσlt t h)] at hd
    simpa [List.get_eq_getElem] using hd
  have hchain : createSecretSantaChain rand ids = .ok (ids.zip (sattoloShuffle rand ids)) := by
    unfold createSecretSantaChain
    rw [if_neg hnot]
    dsimp only
    rw [chain_foldl_eq_zip ids (sattoloShuffle rand ids) hnd hshlen]
  refine ⟨ids.zip (sattoloShuffle rand ids), hchain, ?_, ?_, ?_, ?_⟩
  · exact List.map_fst_zip ids _ (by rw [hshlen])
  · rw [List.map_snd_zip ids _ (by rw [hshlen])]
    have hshnd : (sattoloShuffle rand ids).Nodup := by
      rw [List.nodup_iff_injective_getElem]
      rintro ⟨a, ha⟩ ⟨b, hb⟩ hab
      have ha2 : a < ids.length := by rw [← hshlen]; exact ha
      have hb2 : b < ids.length := by rw [← hshlen]; exact hb
      dsimp only at hab
      have h1 := hgetD a
      have h2 := hgetD b
      rw [List.getD_eq_getElem _ _ ha, List.getD_eq_getElem _ _ (hσlt a ha2)] at h1
      rw [List.getD_eq_getElem _ _ hb, List.getD_eq_getElem _ _ (hσlt b hb2)] at h2
      rw [h1, h2] at hab
      have hσab : σ a = σ b := (List.Nodup.getElem_inj_iff hnd).mp hab
      exact Fin.ext (σ.injective hσab)
    have hmemiff : ∀ a, a ∈ sattoloShuffle rand ids ↔ a ∈ ids := by
      intro a
      constructor
      · intro hma
        obtain ⟨t, hmt⟩ := List.mem_iff_get.mp hma
        have ht2 : t.1 < ids.length := by rw [← hshlen]; exact t.2
        rw [← hmt]
        rw [show (sattoloShuffle rand ids).get t = ids.get ⟨σ t.1, hσlt t.1 ht2⟩ from
          hshget t.1 ht2]
        exact List.get_mem _ _ _
      · intro hma
        obtain ⟨j, hj⟩ := List.mem_iff_get.mp hma
        have hsymm : σ (σ.symm j.1) = j.1 := Equiv.apply_symm_apply σ j.1
        have htlt : σ.symm j.1 < ids.length := by
          by_contra hge
          have hnm : σ.symm j.1 ∉ L := fun hm => hge ((hmemL _).mpr hm)
          have hj2 : j.1 < ids.length := j.2
          have hfixp : σ (σ.symm j.1) = σ.symm j.1 := by
            rw [hPL] at hnm ⊢
            exact List.formPerm_apply_of_not_mem hnm
          rw [hsymm] at hfixp
          rw [hfixp] at hj2
          exact hge hj2
        have h2 : ids.get j
            = (sattoloShuffle rand ids).get ⟨σ.symm j.1, by rw [hshlen]; exact htlt⟩ := by
          rw [hshget (σ.symm j.1) htlt]
          exact get_congr ids j.2 _ hsymm.symm
        rw [← hj, h2]
        exact List.get_mem _ _ _
    exact (List.perm_ext_iff_of_nodup hshnd hnd).mpr hmemiff
  · intro p hp
    obtain ⟨k, hk⟩ := List.mem_iff_get.mp hp
    have hzl : (ids.zip (sattoloShuffle rand ids)).length = ids.length := by
      rw [List.length_zip, hshlen, Nat.min_self]
    have hk2 : k.1 < ids.length := by rw [← hzl]; exact k.2
    have hzget : (ids.zip (sattoloShuffle rand ids)).get k
        = (ids.get ⟨k.1, hk2⟩,
           (sattoloShuffle rand ids).get ⟨k.1, by rw [hshlen]; exact hk2⟩) := by
      simp [List.get_eq_getElem, List.getElem_zip]
    rw [← hk, hzget]
    dsimp only
    rw [hshget k.1 hk2]
    intro hcontra
    have hkk : k.1 = σ k.1 :=
      (List.Nodup.getElem_inj_iff hnd).mp (by simpa [List.get_eq_getElem] using hcontra)
    exact hσfix k.1 hk2 hkk.symm
  · intro x hx
    have hLmem_lt : ∀ p ∈ L, p < ids.length := fun p hp => (hmemL p).mpr hp
    have hTlen : (L.map (fun p => ids.getD p default)).length = ids.length := by
      rw [List.length_map, hLlen]
    have hTnd : (L.map (fun p => ids.getD p default)).Nodup := by
      apply List.Nodup.map_on ?_ hLnd
      intro a ha b hb heq
      rw [List.getD_eq_getElem _ _ (hLmem_lt a ha),
          List.getD_eq_getElem _ _ (hLmem_lt b hb)] at heq
      exact (List.Nodup.getElem_inj_iff hnd).mp heq
    have hTmem : ∀ y, y ∈ L.map (fun p => ids.getD p default) ↔ y ∈ ids := by
      intro y
      rw [List.mem_map]
      constructor
      · rintro ⟨p, hp, rfl⟩
        rw [List.getD_eq_getElem _ _ (hLmem_lt p hp)]
        exact List.getElem_mem _
      · intro hy
        obtain ⟨j, hjy⟩ := List.mem_iff_get.mp hy
        refine ⟨j.1, (hmemL j.1).mp j.2, ?_⟩
        rw [List.getD_eq_getElem _ _ j.2, ← hjy]
        simp [List.get_eq_getElem]
    have hnext : ∀ jj (hjj : jj < ids.length),
        chainNext (ids.zip (sattoloShuffle rand ids)) (ids.get ⟨jj, hjj⟩)
          = ids.get ⟨σ jj, hσlt jj hjj⟩ := by
      intro jj hjj
      unfold chainNext
      rw [mapGet_zip ids _ hnd jj hjj (by rw [hshlen]; exact hjj), Option.getD_some]
      exact hshget jj hjj
    have hTget : ∀ (t : Nat) (htL : t < L.length),
        (L.map (fun p => ids.getD p default)).get ⟨t, by rw [List.length_map]; exact htL⟩
          = ids.get ⟨L.get ⟨t, htL⟩, hLmem_lt _ (List.get_mem _ _ _)⟩ := by
      intro t htL
      simp only [List.get_eq_getElem, List.getElem_map]
      exact List.getD_eq_getElem _ _ (hLmem_lt _ (List.getElem_mem _))
    have hcyc : IsCycleList (chainNext (ids.zip (sattoloShuffle rand ids)))
        (L.map (fun p => ids.getD p default)) := by
      intro i hi
      have hiL : i < L.length := by rw [List.length_map] at hi; exact hi
      have hiL1 : (i+1) % L.length < L.length := Nat.mod_lt _ (by omega)
      have hmodeq : (i+1) % (L.map (fun p => ids.getD p default)).length
          = (i+1) % L.length := by rw [List.length_map]
      have e2 : (L.map (fun p => ids.getD p default)).get
            ⟨(i+1) % (L.map (fun p => ids.getD p default)).length,
             Nat.mod_lt _ (Nat.lt_of_le_of_lt (Nat.zero_le i) hi)⟩
          = ids.get ⟨L.get ⟨(i+1) % L.length, hiL1⟩, hLmem_lt _ (List.get_mem _ _ _)⟩ :=
        (get_congr _ _ (by rw [List.length_map]; exact hiL1) hmodeq).trans (hTget _ hiL1)
      rw [hTget i hiL, hnext _ (hLmem_lt _ (List.get_mem _ _ _)), e2]
      apply get_congr
      rw [hPL]
      simpa [List.get_eq_getElem] using List.formPerm_apply_getElem L hLnd i hiL
    obtain ⟨hnd1, hcov, hret⟩ :=
      hcyc.traversal hTnd x ((hTmem x).mpr hx)
    rw [hTlen] at hnd1 hcov hret
    exact ⟨hnd1, fun y hy => hcov y ((hTmem y).mpr hy), hret⟩

/-- C1 witness -/
theorem createSecretSantaChain_single_cycle_witness :
    2 ≤ (["a", "b", "c"] : List String).length ∧
    (["a", "b", "c"] : List String).Nodup ∧
    (∀ i, 1 ≤ i → demoRand i < i) ∧
    (∃ m, createSecretSantaChain demoRand ["a", "b", "c"] = .ok m ∧
      m.map Prod.fst = ["a", "b", "c"] ∧
      (m.map Prod.snd).Perm ["a", "b", "c"] ∧
      (∀ p ∈ m, p.1 ≠ p.2) ∧
      (∀ x ∈ (["a", "b", "c"] : List String),
        ((List.range (["a", "b", "c"] : List String).length).map
          (fun t => (chainNext m)^[t] x)).Nodup ∧
        (∀ y ∈ (["a", "b", "c"] : List String),
          y ∈ (List.range (["a", "b", "c"] : List String).length).map
            (fun t => (chainNext m)^[t] x)) ∧
        (chainNext m)^[(["a", "b", "c"] : List String).length] x = x)) :=
  ⟨by decide, by decide, fun i hi => Nat.sub_lt (by omega) (by omega),
    createSecretSantaChain_single_cycle ["a", "b", "c"] demoRand (by decide) (by decide)
      (fun i hi => Nat.sub_lt (by omega) (by omega))⟩


/-- C3 (amended) -/
theorem validateAssignments_iff_checks (m : List (String × String))
    (hne : m ≠ []) (hnd : (m.map Prod.fst).Nodup)
    (hkeys : ∀ k ∈ m.map Prod.fst, k ≠ "") :
    ((validateAssignments m).valid = true ↔
      keysEqValues m ∧ noSelfAssignment m ∧ singleCycle m) ∧
    (validateAssignments [("A", "B"), ("B", "C"), ("C", "D"), ("D", "A")]).valid = true := by
  refine ⟨?_, by decide⟩
  unfold validateAssignments
  dsimp only
  split
  · rename_i hcard
    apply iff_of_false (by simp)
    rintro ⟨h1, _, _⟩
    exact hcard (by rw [h1])
  · rename_i hcard
    rw [not_ne_iff] at hcard
    split
    · rename_i r hr
      apply iff_of_false (by simp)
      rintro ⟨h1, _, _⟩
      have hpr := List.find?_some hr
      have hmem : r ∈ (m.map Prod.snd).toFinset :=
        List.mem_toFinset.mpr (List.mem_of_find?_eq_some hr)
      rw [← h1] at hmem
      simp [hmem] at hpr
    · rename_i hnone
      have hsub : ∀ r ∈ m.map Prod.snd, r ∈ m.map Prod.fst := by
        intro r hrm
        have := List.find?_eq_none.mp hnone r hrm
        simpa using this
      have hkeq : keysEqValues m := by
        have hs : (m.map Prod.snd).toFinset ⊆ (m.map Prod.fst).toFinset := by
          intro x hx
          exact List.mem_toFinset.mpr (hsub x (List.mem_toFinset.mp hx))
        exact (Finset.eq_of_subset_of_card_le hs (Nat.le_of_eq hcard)).symm
      split
      · rename_i p hp
        apply iff_of_false (by simp)
        rintro ⟨_, h2, _⟩
        have hps := List.find?_some hp
        exact h2 p (List.mem_of_find?_eq_some hp) (of_decide_eq_true hps)
      · rename_i hselfnone
        have hself : noSelfAssignment m := by
          intro p hp heq
          have := List.find?_eq_none.mp hselfnone p hp
          simp [heq] at this
        have hstart : m.head?.map Prod.fst = some ((m.head hne).1) := by
          rw [List.head?_eq_head hne]
          rfl
        have hk0 : (m.head hne).1 ∈ m.map Prod.fst :=
          List.mem_map.mpr ⟨m.head hne, List.head_mem hne, rfl⟩
        rw [hstart]
        constructor
        · intro hv
          split at hv
          · cases hv
          · split at hv
            · cases hv
            · rename_i hlen hcur
              rw [not_ne_iff] at hlen hcur
              exact ⟨hkeq, hself,
                walk_success_singleCycle m _ hk0 hnd hsub hlen hcur⟩
        · rintro ⟨_, _, hsc⟩
          rw [singleCycle_walk_success m _ hk0 hnd hkeys hsc]
          simp

/-- C3 witness -/
theorem validateAssignments_iff_checks_witness :
    ([("A", "B"), ("B", "C"), ("C", "D"), ("D", "A")] : List (String × String)) ≠ [] ∧
    (([("A", "B"), ("B", "C"), ("C", "D"), ("D", "A")] : List (String × String)).map
      Prod.fst).Nodup ∧
    (∀ k ∈ ([("A", "B"), ("B", "C"), ("C", "D"), ("D", "A")] :
        List (String × String)).map Prod.fst, k ≠ "") ∧
    (((validateAssignments [("A", "B"), ("B", "C"), ("C", "D"), ("D", "A")]).valid = true ↔
      keysEqValues [("A", "B"), ("B", "C"), ("C", "D"), ("D", "A")] ∧
      noSelfAssignment [("A", "B"), ("B", "C"), ("C", "D"), ("D", "A")] ∧
      singleCycle [("A", "B"), ("B", "C"), ("C", "D"), ("D", "A")]) ∧
    (validateAssignments [("A", "B"), ("B", "C"), ("C", "D"), ("D", "A")]).valid = true) :=
  ⟨by decide, by decide, by decide,
    validateAssignments_iff_checks [("A", "B"), ("B", "C"), ("C", "D"), ("D", "A")]
      (by decide) (by decide) (by decide)⟩


end SecretSanta
